import Mathlib

/-!
Verification development for the `idponboarder` repository (Go).

The Go sources are shallowly embedded as Lean definitions:
* `internal/state/manager.go`  → the `State` section (ledger, `shouldSkip`,
  `recordSuccess`, `recordError`, `recordInProgress`, `importState`);
* `internal/errors/types.go`   → the `Errors` section (`categorizeError`,
  `ProcessingError`, `ErrorSummary.addResult`);
* `internal/cmd/root.go`       → the `Cmd` section
  (`sanitizeYAMLIdentifiers`, `processRepositoryAPIWithResult`, the
  result-collection loop of `processAPIMode`, and the worker-pool scheduler
  as a small-step transition relation).

Conventions: Go `time.Time`/`time.Duration` are modelled as `Int`
nanoseconds (`time.Since(t)` = `now - t`); Go maps keyed by strings are
association lists with overwrite-on-insert; the durable state file is an
explicit `Option` field updated by the embedded `saveStateUnsafe`; a
fallible file write is an explicit `writeOk : Bool` input; Go byte strings
are Lean `String`s (byte positions coincide with character positions for
the ASCII inputs the theorems use).
-/

namespace IdpOnboarder

/-! ### State store (`internal/state/manager.go`) -/

/-- `models.RepoState`: one ledger entry.  `error` is Go's `Error` field
(zero value `""` stands for Go's absent/empty string). -/
structure RepoState where
  lastProcessed : Int
  lastCommit : String
  status : String
  errMsg : String
deriving DecidableEq, Repr

/-- The Go zero value of `models.RepoState` (what a map read returns for a
missing key in `RecordInProgress`). -/
def RepoState.zero : RepoState := ⟨0, "", "", ""⟩

/-- The ledger: `models.State.ProcessedRepos`, a Go map modelled as an
association list with overwrite-on-insert. -/
abbrev Ledger := List (String × RepoState)

/-- Map update `m.state.ProcessedRepos[k] = v`: overwrite the entry for `k`
if present, else append it. -/
def setRepo : Ledger → String → RepoState → Ledger
  | [], k, v => [(k, v)]
  | (k', v') :: t, k, v => if k' = k then (k, v) :: t else (k', v') :: setRepo t k v

/-- Map read `m.state.ProcessedRepos[k]` with its `exists` flag. -/
def lookupRepo (l : Ledger) (k : String) : Option RepoState := l.lookup k

/-- `state.Manager` together with the durable state file it writes:
`processedRepos`/`lastRun` mirror the in-memory `models.State`, `durable`
is the last successfully written file content (`none` = no file yet). -/
structure StoreState where
  processedRepos : Ledger
  lastRun : Int
  durable : Option (Ledger × Int)
deriving DecidableEq, Repr

/-- `Manager.saveStateUnsafe`: stamps `LastRun = time.Now()`, then writes
the full marshalled state to the file.  `writeOk = false` models a failed
`ioutil.WriteFile`; the in-memory mutation of `LastRun` has already
happened when the write fails, exactly as in the Go code.  Returns the new
store and the error returned to the caller. -/
def saveStateUnsafe (m : StoreState) (now : Int) (writeOk : Bool) :
    StoreState × Option String :=
  let m1 := { m with lastRun := now }
  if writeOk then
    ({ m1 with durable := some (m1.processedRepos, m1.lastRun) }, none)
  else
    (m1, some "failed to write state file")

/-- Nanoseconds in `time.Hour`. -/
def hourNs : Int := 3600 * 1000000000

/-- `Manager.ShouldSkip`.  `time.Since(t)` is `now - t`;
`lastPushed.After(t)` is `lastPushed > t`. -/
def shouldSkip (m : StoreState) (repoFullName : String) (lastPushed : Int)
    (now : Int) : Bool :=
  match lookupRepo m.processedRepos repoFullName with
  | none => false
  | some repoState =>
    if repoState.status = "error" then
      if now - repoState.lastProcessed < 24 * hourNs then true else false
    else if repoState.status = "success" then
      if lastPushed > repoState.lastProcessed then false
      else if now - repoState.lastProcessed < 7 * 24 * hourNs then true
      else false
    else false

/-- `Manager.RecordSuccess(repoFullName, lastPushed, mode)`: overwrites the
entry with a fresh `success` record and persists via `saveStateUnsafe`
(a write failure is only logged, so the returned store is the first
component regardless). `lastPushed` and `mode` are only logged in Go. -/
def recordSuccess (m : StoreState) (repoFullName : String) (_lastPushed : Int)
    (_mode : String) (now : Int) (writeOk : Bool) : StoreState :=
  let m1 := { m with
    processedRepos := setRepo m.processedRepos repoFullName
      ⟨now, "", "success", ""⟩ }
  (saveStateUnsafe m1 now writeOk).1

/-- The truncation in `Manager.RecordError`: messages longer than 500 bytes
become their first 500 bytes followed by `"..."`. -/
def truncateErrMsg (msg : String) : String :=
  if msg.length > 500 then String.mk (msg.data.take 500 ++ "...".data) else msg

/-- `Manager.RecordError(repoFullName, err)`: truncates `err.Error()`,
overwrites the entry with an `error` record and persists. -/
def recordError (m : StoreState) (repoFullName : String) (errMsg : String)
    (now : Int) (writeOk : Bool) : StoreState :=
  let em := truncateErrMsg errMsg
  let m1 := { m with
    processedRepos := setRepo m.processedRepos repoFullName
      ⟨now, "", "error", em⟩ }
  (saveStateUnsafe m1 now writeOk).1

/-- `Manager.RecordInProgress(repoFullName)`: reads the existing entry (the
zero value when absent), updates `LastProcessed`, `Status`, `Error`, and
stores it back.  The Go function performs no `saveStateUnsafe` call. -/
def recordInProgress (m : StoreState) (repoFullName : String) (now : Int) :
    StoreState :=
  let existing := (lookupRepo m.processedRepos repoFullName).getD RepoState.zero
  { m with
    processedRepos := setRepo m.processedRepos repoFullName
      { existing with lastProcessed := now, status := "in_progress", errMsg := "" } }

/-- The parsed content of an import file: `models.State` where the
`processed_repos` map may be `nil` (`none`). -/
structure ParsedStateFile where
  lastRun : Int
  processedRepos : Option Ledger
deriving DecidableEq, Repr

/-- What happened when `ImportState` read and unmarshalled its file:
the read failed, the JSON failed to parse, or a state was parsed. -/
inductive ImportInput where
  | readFail
  | parseFail
  | parsed (st : ParsedStateFile)
deriving DecidableEq, Repr

/-- `Manager.ImportState`: validates (read, unmarshal, non-nil
`processed_repos`) before any mutation; only then replaces `m.state` and
persists via `saveStateUnsafe`. -/
def importState (m : StoreState) (inp : ImportInput) (now : Int)
    (writeOk : Bool) : StoreState × Option String :=
  match inp with
  | .readFail => (m, some "failed to read import file")
  | .parseFail => (m, some "failed to unmarshal imported state")
  | .parsed st =>
    match st.processedRepos with
    | none => (m, some "invalid state file: missing processed_repos")
    | some pr =>
      saveStateUnsafe { m with processedRepos := pr, lastRun := st.lastRun } now writeOk

/-! ### Error classifier (`internal/errors/types.go`) -/

/-- `errors.ErrorCategory`. -/
inductive ErrorCategory where
  | repository
  | entity
  | authentication
  | validation
  | network
  | pullRequest
  | unknown
deriving DecidableEq, Repr

/-- `errors.ErrorType`. -/
inductive ErrorType where
  | repositoryNotFound
  | repositoryAccessDenied
  | catalogFileNotFound
  | catalogFileInvalid
  | entityExists
  | entityAlreadyRegistered
  | entityNotFound
  | entityValidationFailed
  | unauthorized
  | forbidden
  | apiKeyInvalid
  | invalidIdentifier
  | missingField
  | invalidValue
  | rateLimit
  | timeout
  | connectionFailed
  | prExists
  | prConflict
  | prCreateFailed
  | unknown
deriving DecidableEq, Repr

/-- `errors.ProcessingError`.  The `Cause error` field is modelled by the
cause's message (`cause.Error()`), which is all the embedded code reads
from it. -/
structure ProcessingError where
  category : ErrorCategory
  type : ErrorType
  message : String
  repository : String
  cause : Option String
  recoverable : Bool
  userFriendly : String
deriving DecidableEq, Repr

/-- A Go `error` value reaching `CategorizeError`: either already a
structured `*ProcessingError`, or any other error, carrying its
`Error()` message. -/
inductive GoError where
  | structured (pe : ProcessingError)
  | raw (msg : String)
deriving DecidableEq, Repr

/-- The message `CategorizeError` scans: `err.Error()`. -/
def GoError.message : GoError → String
  | .structured pe =>
    if pe.repository ≠ "" then
      "[" ++ reprStr pe.category ++ ":" ++ reprStr pe.type ++ "] " ++ pe.message
        ++ " (repo: " ++ pe.repository ++ ")"
    else
      "[" ++ reprStr pe.category ++ ":" ++ reprStr pe.type ++ "] " ++ pe.message
  | .raw msg => msg

/-- `strings.ToLower`, character by character (the classifier's patterns
and the theorems' inputs are ASCII, where Go lowercasing is per-rune). -/
def goToLower (s : String) : String := String.mk (s.data.map Char.toLower)

/-- Substring test on character lists: does `pat` occur contiguously? -/
def containsSub (pat : List Char) : List Char → Bool
  | [] => pat.isEmpty
  | c :: t => pat.isPrefixOf (c :: t) || containsSub pat t

/-- `strings.Contains s pat`. -/
def goContains (s pat : String) : Bool := containsSub pat.data s.data

/-- `errors.NewRepositoryNotFoundError`. -/
def newRepositoryNotFoundError (repo : String) (cause : String) : ProcessingError :=
  { category := .repository
    type := .repositoryNotFound
    message := "repository not found or inaccessible"
    repository := repo
    cause := some cause
    recoverable := false
    userFriendly := "Repository '" ++ repo ++ "' was not found or you don't have access to it. Please check the repository name and your permissions." }

/-- `errors.NewEntityExistsError`. -/
def newEntityExistsError (repo identifier : String) (cause : String) : ProcessingError :=
  { category := .entity
    type := .entityExists
    message := "entity with identifier '" ++ identifier ++ "' already exists"
    repository := repo
    cause := some cause
    recoverable := false
    userFriendly := "Component '" ++ identifier ++ "' already exists in Harness IDP. Use update mode or remove the existing component first." }

/-- `errors.NewEntityAlreadyRegisteredError`. -/
def newEntityAlreadyRegisteredError (repo : String) (cause : String) : ProcessingError :=
  { category := .entity
    type := .entityAlreadyRegistered
    message := "entity already registered"
    repository := repo
    cause := some cause
    recoverable := false
    userFriendly := "Repository '" ++ repo ++ "' has already been imported into Harness IDP. No action needed." }

/-- `errors.NewCatalogFileNotFoundError`. -/
def newCatalogFileNotFoundError (repo : String) (cause : String) : ProcessingError :=
  { category := .repository
    type := .catalogFileNotFound
    message := "catalog-info.yaml file not found"
    repository := repo
    cause := some cause
    recoverable := false
    userFriendly := "Repository '" ++ repo ++ "' doesn't have a catalog-info.yaml file. Create one first or use YAML mode to generate it." }

/-- `errors.NewPRExistsError`. -/
def newPRExistsError (repo : String) (prNumber : Nat) (cause : String) : ProcessingError :=
  { category := .pullRequest
    type := .prExists
    message := "pull request already exists (PR #" ++ toString prNumber ++ ")"
    repository := repo
    cause := some cause
    recoverable := false
    userFriendly := "Repository '" ++ repo ++ "' already has an open pull request for Harness onboarding (PR #" ++ toString prNumber ++ "). Please review and merge it first." }

/-- `errors.NewUnauthorizedError`: note it sets no `Repository` field. -/
def newUnauthorizedError (message : String) (cause : String) : ProcessingError :=
  { category := .authentication
    type := .unauthorized
    message := message
    repository := ""
    cause := some cause
    recoverable := false
    userFriendly := "Authentication failed. Please check your API keys and permissions." }

/-- `errors.NewRateLimitError`: the only recoverable constructor; it also
sets no `Repository` field. -/
def newRateLimitError (cause : String) : ProcessingError :=
  { category := .network
    type := .rateLimit
    message := "rate limit exceeded"
    repository := ""
    cause := some cause
    recoverable := true
    userFriendly := "API rate limit exceeded. The tool will retry automatically after a delay." }

/-- The unstructured branch of `errors.CategorizeError`: lowercases the
message and applies the substring rules in source order. -/
def categorizeRawError (msg repo : String) : ProcessingError :=
  let errMsg := goToLower msg
  if goContains errMsg "404" && goContains errMsg "not found" then
    newRepositoryNotFoundError repo msg
  else if goContains errMsg "403" && goContains errMsg "forbidden" then
    { category := .authentication
      type := .forbidden
      message := "access forbidden"
      repository := repo
      cause := some msg
      recoverable := false
      userFriendly := "Access to repository '" ++ repo ++ "' is forbidden. Check your GitHub App permissions." }
  else if goContains errMsg "401" && goContains errMsg "unauthorized" then
    newUnauthorizedError "GitHub authentication failed" msg
  else if goContains errMsg "429" || goContains errMsg "rate limit" then
    newRateLimitError msg
  else if goContains errMsg "duplicate_file_import" || goContains errMsg "already been imported" then
    newEntityAlreadyRegisteredError repo msg
  else if goContains errMsg "already exists" || goContains errMsg "duplicate" then
    newEntityExistsError repo "unknown" msg
  else if goContains errMsg "catalog-info.yaml" && goContains errMsg "not found" then
    newCatalogFileNotFoundError repo msg
  else if goContains errMsg "pull request" && goContains errMsg "already" then
    newPRExistsError repo 0 msg
  else
    { category := .unknown
      type := .unknown
      message := msg
      repository := repo
      cause := some msg
      recoverable := false
      userFriendly := "An unexpected error occurred while processing '" ++ repo ++ "': " ++ msg }

/-- The structured branch of `errors.CategorizeError`: backfill the
repository identity when it is absent. -/
def backfillRepo (pe : ProcessingError) (repo : String) : ProcessingError :=
  if pe.repository = "" then { pe with repository := repo } else pe

/-- `errors.CategorizeError` on a non-nil error (the Go function returns
`nil` for a `nil` error, a case no caller exercises). -/
def categorizeError : GoError → String → ProcessingError
  | .structured pe, repo => backfillRepo pe repo
  | .raw msg, repo => categorizeRawError msg repo

/-- `errors.ProcessingResult`. -/
structure ProcessingResult where
  repository : String
  success : Bool
  error : Option ProcessingError
  message : String
  skipped : Bool
  action : String
deriving DecidableEq, Repr

/-- `errors.ErrorSummary`.  The Go count maps are modelled as total
functions (a missing key reads as `0` in Go). -/
structure ErrorSummary where
  total : Nat
  byCategory : ErrorCategory → Nat
  byType : ErrorType → Nat
  recoverable : Nat
  results : List ProcessingResult

/-- `errors.NewErrorSummary`. -/
def newErrorSummary : ErrorSummary :=
  { total := 0, byCategory := fun _ => 0, byType := fun _ => 0
    recoverable := 0, results := [] }

/-- `ErrorSummary.AddResult`: appends the result; only a non-nil `Error`
bumps the counters (`Total`, the error's category and type keys, and
`Recoverable` when flagged). -/
def addResult (s : ErrorSummary) (r : ProcessingResult) : ErrorSummary :=
  match r.error with
  | none => { s with results := s.results ++ [r] }
  | some e =>
    { results := s.results ++ [r]
      total := s.total + 1
      byCategory := fun c => if c = e.category then s.byCategory c + 1 else s.byCategory c
      byType := fun t => if t = e.type then s.byType t + 1 else s.byType t
      recoverable := if e.recoverable then s.recoverable + 1 else s.recoverable }

/-- Whether a result's error matches category `c` (the per-category
counting predicate). -/
def errHasCategory (c : ErrorCategory) (r : ProcessingResult) : Bool :=
  match r.error with
  | some e => decide (e.category = c)
  | none => false

/-- Whether a result's error matches type `t`. -/
def errHasType (t : ErrorType) (r : ProcessingResult) : Bool :=
  match r.error with
  | some e => decide (e.type = t)
  | none => false

/-! ### API-mode strategy and aggregation (`internal/cmd/root.go`) -/

/-- `processRepositoryAPIWithResult`, as a function of the outcome of
`harnessClient.CreateComponent` (`none` = success, `some e` = the error
it returned). -/
def processRepositoryAPIWithResult (repoFullName : String)
    (createErr : Option GoError) : ProcessingResult :=
  match createErr with
  | some e =>
    let procErr := categorizeError e repoFullName
    if procErr.type = .entityExists then
      { repository := repoFullName, success := false, error := some procErr
        message := "Component already exists", skipped := true, action := "skipped" }
    else
      { repository := repoFullName, success := false, error := some procErr
        message := "Component creation failed", skipped := false, action := "failed" }
  | none =>
    { repository := repoFullName, success := true, error := none
      message := "Component created successfully", skipped := false, action := "created" }

/-- The sequential tail of `processAPIMode`: fold the collected results
into a fresh summary. -/
def collectSummary (results : List ProcessingResult) : ErrorSummary :=
  results.foldl addResult newErrorSummary

/-- The return value of `processAPIMode` as a function of the collected
results: a non-nil error iff `summary.Total > 0`. -/
def processAPIModeOutcome (results : List ProcessingResult) : Option String :=
  let summary := collectSummary results
  if summary.total > 0 then
    some ("encountered " ++ toString summary.total ++ " errors during API processing")
  else none

/-! ### Identifier sanitization (`sanitizeYAMLIdentifiers` in
`internal/cmd/root.go`).  Strings are processed as their character lists:
`strings.Split(s, "\n")` is `List.splitOn '\n'`, `strings.Join(_, "\n")`
is `List.intercalate ['\n']`. -/

/-- Go `unicode.IsSpace` restricted to the Latin-1 range (all the
whitespace `strings.TrimSpace` strips from such text). -/
def isGoSpace (c : Char) : Bool :=
  c = ' ' || c = '\t' || c = '\n' || c = '\r' || c = Char.ofNat 11 ||
    c = Char.ofNat 12 || c = Char.ofNat 0x85 || c = Char.ofNat 0xA0

/-- `strings.TrimSpace` on a character list. -/
def goTrimSpaceChars (l : List Char) : List Char :=
  (l.dropWhile isGoSpace).rdropWhile isGoSpace

/-- `strings.ReplaceAll(value, "-", "_")` (both patterns are single
characters, so this is a character map). -/
def replaceHyphens (l : List Char) : List Char :=
  l.map fun c => if c = '-' then '_' else c

/-- `strings.SplitN(line, sep, 2)`: `some (before, after)` around the first
occurrence of `sep`, `none` when `sep` does not occur (the one-part
case, in which the Go loop leaves the line unchanged). -/
def breakOnChar (sep : Char) : List Char → Option (List Char × List Char)
  | [] => none
  | c :: cs =>
    if c = sep then some ([], cs)
    else
      match breakOnChar sep cs with
      | some p => some (c :: p.1, p.2)
      | none => none

/-- The literal `"identifier:"` the loop matches on. -/
def identKey : List Char := "identifier:".data

/-- The body of the per-line loop in `sanitizeYAMLIdentifiers`. -/
def fixIdentifierLine (line : List Char) : List Char :=
  if identKey.isPrefixOf (goTrimSpaceChars line) then
    match breakOnChar ':' line with
    | some p => p.1 ++ ':' :: ' ' :: replaceHyphens (goTrimSpaceChars p.2)
    | none => line
  else line

/-- `sanitizeYAMLIdentifiers` on a character list. -/
def sanitizeChars (content : List Char) : List Char :=
  List.intercalate ['\n'] ((content.splitOn '\n').map fixIdentifierLine)

/-- `sanitizeYAMLIdentifiers`. -/
def sanitizeYAMLIdentifiers (yamlContent : String) : String :=
  String.mk (sanitizeChars yamlContent.data)

/-! ### Scheduler / worker pool (`processAPIMode` and its siblings in
`internal/cmd/root.go`), as a small-step transition relation.  One
goroutine per repository; a buffered channel of capacity `C` is the
counting semaphore (a task holds a slot from its send until its deferred
receive); the rate-limit `time.Sleep` and the Strategy call both run while
the slot is held; each task sends exactly one result into a channel of
capacity `n` before releasing its slot (the send precedes the deferred
release in the Go code; the release is folded into `finish` here, which
only strengthens the admission bound being proved). -/

/-- Where one repository's goroutine is in its life cycle. -/
inductive TaskPhase where
  | idle
  | waiting
  | rateWait
  | running
  | finished
deriving DecidableEq, Repr

/-- Does the task hold a semaphore slot (it has sent into the semaphore
channel and not yet received back)? -/
def TaskPhase.holdsSlot : TaskPhase → Bool
  | .rateWait => true
  | .running => true
  | _ => false

/-- Is the task done? -/
def TaskPhase.isFinished : TaskPhase → Bool
  | .finished => true
  | _ => false

/-- The scheduler's global state: each goroutine's phase and the number of
results sent into the results channel. -/
structure SchedState where
  tasks : List TaskPhase
  resultsSent : Nat
deriving DecidableEq, Repr

/-- Number of tasks currently holding a semaphore slot (admitted: in the
rate-limit wait or in the Strategy call). -/
def admittedCount (ts : List TaskPhase) : Nat := ts.countP TaskPhase.holdsSlot

/-- Number of finished tasks. -/
def finishedCount (ts : List TaskPhase) : Nat := ts.countP TaskPhase.isFinished

/-- One scheduler transition, for semaphore capacity `C`:
`launch` spawns a goroutine (unbounded), `acquire` is the semaphore send
(blocked while `C` slots are held), `invokeStrategy` ends the rate-limit
sleep and enters the Strategy, `finish` sends the task's single result
(blocked while the results channel, of capacity `tasks.length`, is full)
and performs the deferred semaphore receive. -/
inductive SchedStep (C : Nat) : SchedState → SchedState → Prop where
  | launch (s : SchedState) (i : Nat) (h : s.tasks[i]? = some .idle) :
      SchedStep C s ⟨s.tasks.set i .waiting, s.resultsSent⟩
  | acquire (s : SchedState) (i : Nat) (h : s.tasks[i]? = some .waiting)
      (hc : admittedCount s.tasks < C) :
      SchedStep C s ⟨s.tasks.set i .rateWait, s.resultsSent⟩
  | invokeStrategy (s : SchedState) (i : Nat) (h : s.tasks[i]? = some .rateWait) :
      SchedStep C s ⟨s.tasks.set i .running, s.resultsSent⟩
  | finish (s : SchedState) (i : Nat) (h : s.tasks[i]? = some .running)
      (hq : s.resultsSent < s.tasks.length) :
      SchedStep C s ⟨s.tasks.set i .finished, s.resultsSent + 1⟩

/-- The scheduler's initial state for `n` repositories. -/
def initSched (n : Nat) : SchedState := ⟨List.replicate n .idle, 0⟩

/-- States the scheduler can reach from the start of a run. -/
def SchedReach (C n : Nat) (s : SchedState) : Prop :=
  Relation.ReflTransGen (SchedStep C) (initSched n) s

/-! ### Spec-side definitions (for refinement claims; these follow the
claims' words, not the source). -/

/-- The decision table of claim C2, as that claim states it. -/
def shouldSkipSpecTable (entry : Option RepoState) (lastPushed now : Int) : Bool :=
  match entry with
  | none => false
  | some e =>
    if e.status = "error" then decide (now - e.lastProcessed < 24 * hourNs)
    else if e.status = "success" then
      if decide (lastPushed > e.lastProcessed) then false
      else decide (now - e.lastProcessed < 7 * 24 * hourNs)
    else false

/-! ### Helper lemmas -/

/-- Writing a key makes it readable: the map-update model is sound. -/
theorem lookup_setRepo (l : Ledger) (k : String) (v : RepoState) :
    lookupRepo (setRepo l k v) k = some v := by
  induction l with
  | nil => simp [setRepo, lookupRepo, List.lookup]
  | cons h t ih =>
    by_cases hk : h.1 = k
    · simp [setRepo, hk, lookupRepo, List.lookup]
    · have hbe : (k == h.1) = false := by
        rw [beq_eq_false_iff_ne]
        exact Ne.symm hk
      simpa [setRepo, hk, lookupRepo, List.lookup, hbe] using ih

/-- Writing a key leaves every other key's entry unchanged. -/
theorem lookup_setRepo_ne (l : Ledger) (k k' : String) (v : RepoState)
    (hne : k' ≠ k) : lookupRepo (setRepo l k v) k' = lookupRepo l k' := by
  have hbe : (k' == k) = false := by
    rw [beq_eq_false_iff_ne]; exact hne
  induction l with
  | nil => simp [setRepo, lookupRepo, List.lookup, hbe]
  | cons h t ih =>
    by_cases hk : h.1 = k
    · subst hk
      simp [setRepo, lookupRepo, List.lookup, hbe]
    · by_cases hk' : k' = h.1
      · simp [setRepo, hk, lookupRepo, List.lookup, hk']
      · have hbe' : (k' == h.1) = false := by
          rw [beq_eq_false_iff_ne]; exact hk'
        simpa [setRepo, hk, lookupRepo, List.lookup, hbe'] using ih

/-! ### Claim theorems -/

/-- C2: `ShouldSkip` implements exactly the claimed decision table: no
entry → `false`; an `error` entry skips iff it is younger than 24 hours;
a `success` entry never skips when `lastPushed` is strictly newer than
`lastProcessed` and otherwise skips iff it is younger than 7 days; any
other status (including `in_progress`) → `false`. -/
theorem shouldSkip_matches_decision_table (m : StoreState) (repoFullName : String)
    (lastPushed now : Int) :
    shouldSkip m repoFullName lastPushed now
      = shouldSkipSpecTable (lookupRepo m.processedRepos repoFullName) lastPushed now := by
  unfold shouldSkip shouldSkipSpecTable
  cases lookupRepo m.processedRepos repoFullName with
  | none => rfl
  | some e =>
    dsimp only
    split_ifs <;> simp_all
    omega

/-- C1 (counterexample): `RecordInProgress` does not persist: starting from
a store whose durable file matches memory, the call leaves the durable
ledger different from the in-memory one, refuting the claim that all three
record operations synchronously persist. -/
theorem recordInProgress_not_persisted :
    ¬ ((recordInProgress ⟨[], 0, some ([], 0)⟩ "acme/widget" 5).durable
        = some ((recordInProgress ⟨[], 0, some ([], 0)⟩ "acme/widget" 5).processedRepos,
                (recordInProgress ⟨[], 0, some ([], 0)⟩ "acme/widget" 5).lastRun)) := by
  decide

/-- C1 (amended): `RecordSuccess` and `RecordError` overwrite the entry for
the given identity and synchronously persist the full ledger (after either
returns with a successful write, the durable copy equals the in-memory
state); `RecordInProgress` overwrites the entry in memory only and leaves
the durable copy untouched. -/
theorem record_ops_persistence (m : StoreState) (repoFullName mode errMsg : String)
    (lastPushed now : Int) :
    ((recordSuccess m repoFullName lastPushed mode now true).durable
        = some ((recordSuccess m repoFullName lastPushed mode now true).processedRepos,
                (recordSuccess m repoFullName lastPushed mode now true).lastRun))
    ∧ (lookupRepo (recordSuccess m repoFullName lastPushed mode now true).processedRepos
          repoFullName = some ⟨now, "", "success", ""⟩)
    ∧ ((recordError m repoFullName errMsg now true).durable
        = some ((recordError m repoFullName errMsg now true).processedRepos,
                (recordError m repoFullName errMsg now true).lastRun))
    ∧ (lookupRepo (recordError m repoFullName errMsg now true).processedRepos
          repoFullName = some ⟨now, "", "error", truncateErrMsg errMsg⟩)
    ∧ ((recordInProgress m repoFullName now).durable = m.durable) := by
  refine ⟨rfl, ?_, rfl, ?_, rfl⟩ <;>
    simp [recordSuccess, recordError, saveStateUnsafe, lookup_setRepo]

set_option maxRecDepth 8192 in
/-- C3 (counterexample): an error message of 501 characters is stored as
its first 500 characters plus `"..."`, i.e. with length 503 > 500,
refuting the claimed 500-character bound. -/
theorem recordError_message_over_500 :
    ¬ (∀ st : RepoState,
        lookupRepo
            (recordError ⟨[], 0, none⟩ "acme/widget"
              (String.mk (List.replicate 501 'a')) 7 true).processedRepos
            "acme/widget" = some st →
        st.errMsg.length ≤ 500) := by
  intro hall
  exact absurd
    (hall ⟨7, "", "error", truncateErrMsg (String.mk (List.replicate 501 'a'))⟩ (by decide))
    (by decide)

/-- C3 (amended): the message stored by `RecordError` has length at most
503: a message of at most 500 characters is stored unchanged, a longer one
is truncated to its first 500 characters followed by `"..."` (so exactly
503). -/
theorem recordError_message_bounded (m : StoreState) (repoFullName errMsg : String)
    (now : Int) (writeOk : Bool) :
    (lookupRepo (recordError m repoFullName errMsg now writeOk).processedRepos
        repoFullName = some ⟨now, "", "error", truncateErrMsg errMsg⟩)
    ∧ (truncateErrMsg errMsg).length ≤ 503
    ∧ (errMsg.length ≤ 500 → truncateErrMsg errMsg = errMsg)
    ∧ (500 < errMsg.length →
        truncateErrMsg errMsg = String.mk (errMsg.data.take 500 ++ "...".data)
        ∧ (truncateErrMsg errMsg).length = 503) := by
  have hd : errMsg.data.length = errMsg.length := rfl
  have h3 : ("...".data).length = 3 := rfl
  refine ⟨?_, ?_, ?_, ?_⟩
  · unfold recordError
    cases writeOk <;> simp [saveStateUnsafe, lookup_setRepo]
  · unfold truncateErrMsg
    split
    · show (errMsg.data.take 500 ++ "...".data).length ≤ 503
      simp only [List.length_append, List.length_take, h3]
      omega
    · omega
  · intro h
    unfold truncateErrMsg
    rw [if_neg (by omega)]
  · intro h
    unfold truncateErrMsg
    rw [if_pos (by omega)]
    refine ⟨rfl, ?_⟩
    show (errMsg.data.take 500 ++ "...".data).length = 503
    simp only [List.length_append, List.length_take, h3]
    omega

/-- C3 (amended) witness at concrete inputs: a short message is stored
unchanged within the bound. -/
theorem recordError_message_bounded_witness :
    (lookupRepo (recordError ⟨[], 0, none⟩ "acme/widget" "boom" 7 true).processedRepos
        "acme/widget" = some ⟨7, "", "error", truncateErrMsg "boom"⟩)
    ∧ (truncateErrMsg "boom").length ≤ 503
    ∧ truncateErrMsg "boom" = "boom" :=
  ⟨(recordError_message_bounded ⟨[], 0, none⟩ "acme/widget" "boom" 7 true).1,
   (recordError_message_bounded ⟨[], 0, none⟩ "acme/widget" "boom" 7 true).2.1,
   (recordError_message_bounded ⟨[], 0, none⟩ "acme/widget" "boom" 7 true).2.2.1 (by decide)⟩

/-- C10: `ImportState` is atomic on validation failure: a failed read, a
failed parse, or a parsed state with a nil `processed_repos` map each
return an error and leave the in-memory ledger (and the durable file)
exactly as before the call. -/
theorem importState_atomic_on_failure (m : StoreState) (now : Int)
    (writeOk : Bool) (lastRunOfFile : Int) :
    ((importState m .readFail now writeOk).1 = m
      ∧ ((importState m .readFail now writeOk).2).isSome = true)
    ∧ ((importState m .parseFail now writeOk).1 = m
      ∧ ((importState m .parseFail now writeOk).2).isSome = true)
    ∧ ((importState m (.parsed ⟨lastRunOfFile, none⟩) now writeOk).1 = m
      ∧ ((importState m (.parsed ⟨lastRunOfFile, none⟩) now writeOk).2).isSome = true) := by
  exact ⟨⟨rfl, rfl⟩, ⟨rfl, rfl⟩, ⟨rfl, rfl⟩⟩

/-- Folding `addResult` from any accumulator adds exactly the counts of
error-carrying results. -/
theorem foldl_addResult_counts (rs : List ProcessingResult) (s : ErrorSummary) :
    ((rs.foldl addResult s).total = s.total + rs.countP (fun r => r.error.isSome))
    ∧ (∀ c, (rs.foldl addResult s).byCategory c
        = s.byCategory c + rs.countP (errHasCategory c))
    ∧ (∀ t, (rs.foldl addResult s).byType t
        = s.byType t + rs.countP (errHasType t)) := by
  induction rs generalizing s with
  | nil => simp
  | cons r rs ih =>
    obtain ⟨ih1, ih2, ih3⟩ := ih (addResult s r)
    rw [List.foldl_cons]
    refine ⟨?_, ?_, ?_⟩
    · rw [ih1, List.countP_cons]
      unfold addResult
      cases hre : r.error <;> simp [hre]
      omega
    · intro c
      rw [ih2 c, List.countP_cons]
      unfold addResult errHasCategory
      cases hre : r.error with
      | none => simp
      | some e =>
        by_cases hc : e.category = c
        · subst hc
          simp
          omega
        · have hc' : ¬ (c = e.category) := fun hcc => hc hcc.symm
          simp [hc, hc']
    · intro t
      rw [ih3 t, List.countP_cons]
      unfold addResult errHasType
      cases hre : r.error with
      | none => simp
      | some e =>
        by_cases ht : e.type = t
        · subst ht
          simp
          omega
        · have ht' : ¬ (t = e.type) := fun htt => ht htt.symm
          simp [ht, ht']

/-- C4: the summary's `Total` counts exactly the collected results whose
`Error` is non-nil (so a skipped result without an error is never
counted), the per-category and per-type counters count exactly the
error-carrying results of that category/type, and `processAPIMode` returns
a non-nil error iff that count is positive. -/
theorem errorSummary_counts_errors (results : List ProcessingResult) :
    ((collectSummary results).total = results.countP (fun r => r.error.isSome))
    ∧ (∀ c, (collectSummary results).byCategory c
        = results.countP (errHasCategory c))
    ∧ (∀ t, (collectSummary results).byType t
        = results.countP (errHasType t))
    ∧ ((processAPIModeOutcome results).isSome = true
        ↔ 0 < results.countP (fun r => r.error.isSome)) := by
  obtain ⟨h1, h2, h3⟩ := foldl_addResult_counts results newErrorSummary
  have htot : (collectSummary results).total
      = results.countP (fun r => r.error.isSome) := by
    simpa [collectSummary, newErrorSummary] using h1
  refine ⟨htot, ?_, ?_, ?_⟩
  · intro c
    simpa [collectSummary, newErrorSummary] using h2 c
  · intro t
    simpa [collectSummary, newErrorSummary] using h3 t
  · unfold processAPIModeOutcome
    simp only [htot]
    by_cases h : 0 < results.countP (fun r => r.error.isSome) <;> simp [h, Nat.pos_iff_ne_zero]
    try omega

/-- C5 (counterexample): an error text containing both
`duplicate_file_import` and `already exists` but also `404` and
`not found` is classified by the earlier 404 rule as
`REPOSITORY_NOT_FOUND`, not `ENTITY_ALREADY_REGISTERED`, refuting the
claim's unconditional statement. -/
theorem categorize_duplicate_import_404_counterexample :
    (goContains (goToLower "404 not found: duplicate_file_import already exists")
        "duplicate_file_import" = true)
    ∧ (goContains (goToLower "404 not found: duplicate_file_import already exists")
        "already exists" = true)
    ∧ ¬ ((categorizeError
          (.raw "404 not found: duplicate_file_import already exists")
          "acme/widget").category = .entity
        ∧ (categorizeError
          (.raw "404 not found: duplicate_file_import already exists")
          "acme/widget").type = .entityAlreadyRegistered) := by
  decide

/-- C5 (amended): the substring rules are evaluated in a fixed priority
order with first-match-wins: when none of the four earlier rules
(404/not-found, 403/forbidden, 401/unauthorized, 429-or-rate-limit)
matches, an error text containing `duplicate_file_import` or
`already been imported` is classified as Entity/`ENTITY_ALREADY_REGISTERED`
— even when it also contains `already exists`; and when none of the eight
rules matches, the error falls through to the Unknown/`UNKNOWN`
classification (every input maps to exactly one category and type). -/
theorem categorize_priority_order (msg repo : String)
    (h404 : (goContains (goToLower msg) "404" && goContains (goToLower msg) "not found") = false)
    (h403 : (goContains (goToLower msg) "403" && goContains (goToLower msg) "forbidden") = false)
    (h401 : (goContains (goToLower msg) "401" && goContains (goToLower msg) "unauthorized") = false)
    (h429 : (goContains (goToLower msg) "429" || goContains (goToLower msg) "rate limit") = false) :
    ((goContains (goToLower msg) "duplicate_file_import"
        || goContains (goToLower msg) "already been imported") = true →
      (categorizeError (.raw msg) repo).category = .entity
      ∧ (categorizeError (.raw msg) repo).type = .entityAlreadyRegistered)
    ∧ ((goContains (goToLower msg) "duplicate_file_import"
        || goContains (goToLower msg) "already been imported") = false →
       (goContains (goToLower msg) "already exists"
        || goContains (goToLower msg) "duplicate") = false →
       (goContains (goToLower msg) "catalog-info.yaml"
        && goContains (goToLower msg) "not found") = false →
       (goContains (goToLower msg) "pull request"
        && goContains (goToLower msg) "already") = false →
      (categorizeError (.raw msg) repo).category = .unknown
      ∧ (categorizeError (.raw msg) repo).type = .unknown) := by
  constructor
  · intro hdup
    simp [categorizeError, categorizeRawError, h404, h403, h401, h429, hdup,
      newEntityAlreadyRegisteredError]
  · intro hdup hex hcat hpr
    simp [categorizeError, categorizeRawError, h404, h403, h401, h429, hdup,
      hex, hcat, hpr]

/-- C5 (amended) witness: a plain duplicate-import message, matched by no
earlier rule, classifies as Entity/`ENTITY_ALREADY_REGISTERED` even though
it also says `already exists`. -/
theorem categorize_priority_order_witness :
    (categorizeError (.raw "duplicate_file_import: entity already exists")
        "acme/widget").category = .entity
    ∧ (categorizeError (.raw "duplicate_file_import: entity already exists")
        "acme/widget").type = .entityAlreadyRegistered :=
  (categorize_priority_order "duplicate_file_import: entity already exists"
      "acme/widget" (by decide) (by decide) (by decide) (by decide)).1
    (by decide)

/-- C6 (counterexample): `CategorizeError` is not idempotent on every
error: a raw `401 unauthorized` error is classified with an empty
`Repository` field (the `NewUnauthorizedError` constructor sets none), so
reclassifying the result backfills the repository and changes it. -/
theorem categorize_not_idempotent_on_unauthorized :
    ¬ (categorizeError
        (.structured (categorizeError (.raw "401 unauthorized") "acme/widget"))
        "acme/widget"
      = categorizeError (.raw "401 unauthorized") "acme/widget") := by
  decide

/-- C6 (amended): on structured errors `CategorizeError` returns its input
unchanged except that an empty `Repository` is backfilled, and is
idempotent there: a second application is the identity; for an arbitrary
error the double-application law holds exactly when the first
classification left a non-empty `Repository` or the supplied identity is
itself empty (the unauthorized and rate-limit constructors violate it
otherwise, as the counterexample shows). -/
theorem categorize_structured_idempotent (pe : ProcessingError) (e : GoError)
    (repo : String) :
    (categorizeError (.structured pe) repo
      = if pe.repository = "" then { pe with repository := repo } else pe)
    ∧ (categorizeError (.structured (categorizeError (.structured pe) repo)) repo
      = categorizeError (.structured pe) repo)
    ∧ ((categorizeError e repo).repository ≠ "" ∨ repo = "" →
      categorizeError (.structured (categorizeError e repo)) repo
        = categorizeError e repo) := by
  have hback : ∀ q : ProcessingError, q.repository ≠ "" ∨ repo = "" →
      backfillRepo q repo = q := by
    intro q hq
    unfold backfillRepo
    rcases hq with hq | hq
    · rw [if_neg hq]
    · split
      · cases q
        simp_all
      · rfl
  refine ⟨rfl, ?_, ?_⟩
  · show backfillRepo (backfillRepo pe repo) repo = backfillRepo pe repo
    unfold backfillRepo
    by_cases h : pe.repository = ""
    · by_cases hr : repo = "" <;> simp [h, hr]
    · simp [h]
  · intro h
    exact hback (categorizeError e repo) h

/-- C6 (amended) witness: a structured error with a repository set passes
through both applications unchanged. -/
theorem categorize_structured_idempotent_witness :
    categorizeError
        (.structured (categorizeError (.raw "boom") "acme/widget")) "acme/widget"
      = categorizeError (.raw "boom") "acme/widget" :=
  (categorize_structured_idempotent
      (categorizeError (.raw "boom") "acme/widget")
      (.raw "boom") "acme/widget").2.2 (by decide)

/-- C8: when `CreateComponent` fails with an error classified as
`ENTITY_EXISTS`, the result is a graceful skip (`Skipped = true`,
`Action = "skipped"`); every other failure yields `Action = "failed"` with
the classified `ProcessingError` attached — and `"skipped"` is produced on
failure exactly for `ENTITY_EXISTS`. -/
theorem apiMode_entity_exists_skips (e : GoError) (repo : String) :
    ((categorizeError e repo).type = .entityExists →
      (processRepositoryAPIWithResult repo (some e)).skipped = true
      ∧ (processRepositoryAPIWithResult repo (some e)).action = "skipped")
    ∧ ((categorizeError e repo).type ≠ .entityExists →
      (processRepositoryAPIWithResult repo (some e)).action = "failed"
      ∧ (processRepositoryAPIWithResult repo (some e)).skipped = false
      ∧ (processRepositoryAPIWithResult repo (some e)).error
          = some (categorizeError e repo))
    ∧ ((processRepositoryAPIWithResult repo (some e)).action = "skipped"
      ↔ (categorizeError e repo).type = .entityExists) := by
  unfold processRepositoryAPIWithResult
  by_cases h : (categorizeError e repo).type = .entityExists <;> simp [h]

/-- C8 witness: a raw `already exists` error classifies as
`ENTITY_EXISTS` and produces the skipped result. -/
theorem apiMode_entity_exists_skips_witness :
    (processRepositoryAPIWithResult "acme/widget"
        (some (.raw "entity already exists"))).skipped = true
    ∧ (processRepositoryAPIWithResult "acme/widget"
        (some (.raw "entity already exists"))).action = "skipped" :=
  (apiMode_entity_exists_skips (.raw "entity already exists") "acme/widget").1
    (by decide)


/-! ### Infrastructure for the sanitizer proofs -/

theorem dropWhile_append_of_forall {p : Char → Bool} {w : List Char}
    (hw : ∀ a ∈ w, p a = true) (t : List Char) :
    List.dropWhile p (w ++ t) = List.dropWhile p t := by
  induction w with
  | nil => rfl
  | cons a w ih =>
    have ha : p a = true := hw a (List.mem_cons_self a w)
    rw [List.cons_append, List.dropWhile_cons, if_pos ha]
    exact ih (fun b hb => hw b (List.mem_cons_of_mem a hb))

theorem dropWhile_cons_neg {p : Char → Bool} {a : Char} (ha : p a = false)
    (t : List Char) : List.dropWhile p (a :: t) = a :: t := by
  rw [List.dropWhile_cons, if_neg (by simp [ha])]

theorem rdropWhile_append_of_forall {p : Char → Bool} {w : List Char}
    (hw : ∀ a ∈ w, p a = true) (x : List Char) :
    List.rdropWhile p (x ++ w) = List.rdropWhile p x := by
  unfold List.rdropWhile
  rw [List.reverse_append, dropWhile_append_of_forall (fun a ha => hw a (List.mem_reverse.mp ha))]

theorem drop_decomp (p : Char → Bool) (l : List Char) :
    l = l.takeWhile p ++ l.dropWhile p ∧ ∀ a ∈ l.takeWhile p, p a = true :=
  ⟨(List.takeWhile_append_dropWhile p l).symm, fun _ ha => List.mem_takeWhile_imp ha⟩

theorem rdrop_decomp (p : Char → Bool) (l : List Char) :
    l = l.rdropWhile p ++ (l.reverse.takeWhile p).reverse
    ∧ ∀ a ∈ (l.reverse.takeWhile p).reverse, p a = true := by
  constructor
  · conv_lhs => rw [← List.reverse_reverse l, ← List.takeWhile_append_dropWhile p l.reverse]
    rw [List.reverse_append]
    rfl
  · intro a ha
    exact List.mem_takeWhile_imp (List.mem_reverse.mp ha)

theorem mem_of_mem_dropWhile {p : Char → Bool} {l : List Char} {a : Char}
    (ha : a ∈ l.dropWhile p) : a ∈ l := by
  rw [← List.takeWhile_append_dropWhile p l]
  exact List.mem_append_right _ ha

theorem mem_of_mem_rdropWhile {p : Char → Bool} {l : List Char} {a : Char}
    (ha : a ∈ l.rdropWhile p) : a ∈ l := by
  rw [(rdrop_decomp p l).1]
  exact List.mem_append_left _ ha

theorem dropWhile_head_false {p : Char → Bool} {a : Char} {t l : List Char}
    (h : l.dropWhile p = a :: t) : p a = false := by
  induction l with
  | nil => exact absurd h (by simp)
  | cons b l ih =>
    rw [List.dropWhile_cons] at h
    by_cases hb : p b = true
    · rw [if_pos hb] at h
      exact ih h
    · rw [if_neg hb] at h
      obtain ⟨rfl, rfl⟩ : b = a ∧ l = t := by
        cases h
        exact ⟨rfl, rfl⟩
      simpa using hb

theorem dropWhile_stable_of_stable_app {p : Char → Bool} {y : List Char}
    (hy : y.dropWhile p = y) (hne : y ≠ []) (z : List Char) :
    (y ++ z).dropWhile p = y ++ z := by
  cases y with
  | nil => exact absurd rfl hne
  | cons a t =>
    have ha : p a = false := dropWhile_head_false hy
    rw [List.cons_append, dropWhile_cons_neg ha]

theorem rdropWhile_stable_app {p : Char → Bool} {y : List Char}
    (hy : y.rdropWhile p = y) (hne : y ≠ []) (x : List Char) :
    (x ++ y).rdropWhile p = x ++ y := by
  unfold List.rdropWhile at hy ⊢
  have hrev : y.reverse.dropWhile p = y.reverse := by
    calc y.reverse.dropWhile p
        = ((y.reverse.dropWhile p).reverse).reverse := (List.reverse_reverse _).symm
      _ = y.reverse := by rw [hy]
  have hrne : y.reverse ≠ [] := by
    intro h
    exact hne (by simpa using congrArg List.reverse h)
  rw [List.reverse_append, dropWhile_stable_of_stable_app hrev hrne x.reverse,
    ← List.reverse_append, List.reverse_reverse]

theorem trim_drop_stable (l : List Char) :
    (goTrimSpaceChars l).dropWhile isGoSpace = goTrimSpaceChars l := by
  unfold goTrimSpaceChars
  cases htl : (l.dropWhile isGoSpace).rdropWhile isGoSpace with
  | nil => rfl
  | cons a t =>
    obtain ⟨rest, hrest⟩ := List.rdropWhile_prefix isGoSpace (l.dropWhile isGoSpace)
    rw [htl] at hrest
    have hstable : (l.dropWhile isGoSpace).dropWhile isGoSpace = l.dropWhile isGoSpace :=
      List.dropWhile_idempotent _ _
    have hX : (l.dropWhile isGoSpace).dropWhile isGoSpace = a :: (t ++ rest) := by
      rw [hstable, ← hrest]
      rfl
    exact dropWhile_cons_neg (dropWhile_head_false hX) t

theorem trim_rdrop_stable (l : List Char) :
    (goTrimSpaceChars l).rdropWhile isGoSpace = goTrimSpaceChars l :=
  List.rdropWhile_idempotent _ _

theorem isGoSpace_not_colon {c : Char} (h : isGoSpace c = true) : c ≠ ':' := by
  intro hc
  subst hc
  exact absurd h (by decide)

theorem replaceHyphens_space (c : Char) :
    isGoSpace (if c = '-' then '_' else c) = isGoSpace c := by
  by_cases hc : c = '-'
  · subst hc
    decide
  · rw [if_neg hc]

theorem replaceHyphens_no_hyphen {l : List Char} {c : Char}
    (hc : c ∈ replaceHyphens l) : c ≠ '-' := by
  unfold replaceHyphens at hc
  obtain ⟨a, _, ha⟩ := List.mem_map.mp hc
  intro hcc
  subst hcc
  by_cases haa : a = '-'
  · rw [if_pos haa] at ha
    exact absurd ha (by decide)
  · rw [if_neg haa] at ha
    exact haa ha

theorem replaceHyphens_newline {l : List Char}
    (hc : '\n' ∈ replaceHyphens l) : '\n' ∈ l := by
  unfold replaceHyphens at hc
  obtain ⟨a, hal, ha⟩ := List.mem_map.mp hc
  by_cases haa : a = '-'
  · rw [if_pos haa] at ha
    exact absurd ha (by decide)
  · rw [if_neg haa] at ha
    rwa [ha] at hal

theorem replaceHyphens_idem (l : List Char) :
    replaceHyphens (replaceHyphens l) = replaceHyphens l := by
  induction l with
  | nil => rfl
  | cons a t ih =>
    show (if (if a = '-' then '_' else a) = '-' then '_'
        else (if a = '-' then '_' else a)) :: replaceHyphens (replaceHyphens t)
      = (if a = '-' then '_' else a) :: replaceHyphens t
    rw [ih]
    by_cases haa : a = '-'
    · rw [if_pos haa]
      rfl
    · rw [if_neg haa, if_neg haa]

theorem dropWhile_replaceHyphens (l : List Char) :
    (replaceHyphens l).dropWhile isGoSpace = replaceHyphens (l.dropWhile isGoSpace) := by
  induction l with
  | nil => rfl
  | cons a t ih =>
    show ((if a = '-' then '_' else a) :: replaceHyphens t).dropWhile isGoSpace = _
    rw [List.dropWhile_cons, List.dropWhile_cons, replaceHyphens_space a]
    by_cases ha : isGoSpace a = true
    · rw [if_pos ha, if_pos ha]
      exact ih
    · rw [if_neg ha, if_neg ha]
      rfl

theorem reverse_replaceHyphens (l : List Char) :
    (replaceHyphens l).reverse = replaceHyphens l.reverse := by
  unfold replaceHyphens
  rw [List.map_reverse]

theorem rdropWhile_replaceHyphens (l : List Char) :
    (replaceHyphens l).rdropWhile isGoSpace = replaceHyphens (l.rdropWhile isGoSpace) := by
  unfold List.rdropWhile
  rw [reverse_replaceHyphens, dropWhile_replaceHyphens, reverse_replaceHyphens]

theorem breakOnChar_app {sep : Char} {a : List Char} (ha : sep ∉ a) (b : List Char) :
    breakOnChar sep (a ++ sep :: b) = some (a, b) := by
  induction a with
  | nil => simp [breakOnChar]
  | cons c t ih =>
    have hc : ¬ (c = sep) := fun h => ha (h ▸ List.mem_cons_self c t)
    rw [List.cons_append]
    unfold breakOnChar
    rw [if_neg hc, ih (fun h => ha (List.mem_cons_of_mem c h))]

theorem breakOnChar_eq_some {sep : Char} :
    ∀ {l a b : List Char}, breakOnChar sep l = some (a, b) →
      l = a ++ sep :: b ∧ sep ∉ a := by
  intro l
  induction l with
  | nil => intro a b h; exact absurd h (by simp [breakOnChar])
  | cons c t ih =>
    intro a b h
    unfold breakOnChar at h
    by_cases hc : c = sep
    · rw [if_pos hc] at h
      obtain ⟨rfl, rfl⟩ : [] = a ∧ t = b := by
        cases h
        exact ⟨rfl, rfl⟩
      subst hc
      exact ⟨rfl, by simp⟩
    · rw [if_neg hc] at h
      cases hbt : breakOnChar sep t with
      | none => rw [hbt] at h; exact absurd h (by simp)
      | some p =>
        rw [hbt] at h
        obtain ⟨rfl, rfl⟩ : c :: p.1 = a ∧ p.2 = b := by
          cases h
          exact ⟨rfl, rfl⟩
        obtain ⟨h1, h2⟩ := ih hbt
        refine ⟨by rw [List.cons_append, ← h1], ?_⟩
        intro hmem
        rcases List.mem_cons.mp hmem with hh | hh
        · exact hc hh.symm
        · exact h2 hh

theorem breakOnChar_isSome_of_mem {sep : Char} :
    ∀ {l : List Char}, sep ∈ l → breakOnChar sep l ≠ none := by
  intro l
  induction l with
  | nil => intro h; exact absurd h (List.not_mem_nil sep)
  | cons c t ih =>
    intro h
    unfold breakOnChar
    by_cases hc : c = sep
    · rw [if_pos hc]
      simp
    · rw [if_neg hc]
      have hmem : sep ∈ t := by
        rcases List.mem_cons.mp h with hh | hh
        · exact absurd hh.symm hc
        · exact hh
      cases hbt : breakOnChar sep t with
      | none => exact absurd hbt (ih hmem)
      | some p => simp

theorem dropWhile_append_split (p : Char → Bool) (t w : List Char) :
    List.dropWhile p (t ++ w)
      = if t.dropWhile p = [] then w.dropWhile p else t.dropWhile p ++ w := by
  induction t with
  | nil => simp
  | cons a t ih =>
    rw [List.cons_append, List.dropWhile_cons, List.dropWhile_cons]
    by_cases ha : p a = true
    · rw [if_pos ha, if_pos ha, ih]
    · rw [if_neg ha, if_neg ha, if_neg (by simp)]
      rw [List.cons_append]

theorem trim_append_spaces {w : List Char} (hw : ∀ a ∈ w, isGoSpace a = true)
    (t : List Char) : goTrimSpaceChars (t ++ w) = goTrimSpaceChars t := by
  unfold goTrimSpaceChars
  rw [dropWhile_append_split]
  by_cases ht : t.dropWhile isGoSpace = []
  · rw [if_pos ht, ht, List.rdropWhile_nil]
    rw [List.dropWhile_eq_nil_iff.mpr hw, List.rdropWhile_nil]
  · rw [if_neg ht, rdropWhile_append_of_forall hw]

theorem isPrefixOf_append_self : ∀ x y : List Char, x.isPrefixOf (x ++ y) = true := by
  intro x y
  induction x with
  | nil => simp
  | cons a t ih => simp [List.isPrefixOf, ih]

theorem colon_not_mem_field {ws : List Char} (hws : ∀ a ∈ ws, isGoSpace a = true) :
    ':' ∉ ws ++ "identifier".data := by
  intro hmem
  rcases List.mem_append.mp hmem with hh | hh
  · exact isGoSpace_not_colon (hws ':' hh) rfl
  · exact absurd hh (by decide)

theorem matched_line_decomp {line : List Char}
    (h : identKey.isPrefixOf (goTrimSpaceChars line) = true) :
    ∃ ws t w,
      (∀ a ∈ ws, isGoSpace a = true)
      ∧ (∀ a ∈ w, isGoSpace a = true)
      ∧ goTrimSpaceChars line = identKey ++ t
      ∧ line = (ws ++ "identifier".data) ++ ':' :: (t ++ w)
      ∧ breakOnChar ':' line = some (ws ++ "identifier".data, t ++ w) := by
  obtain ⟨t, ht⟩ : ∃ t, goTrimSpaceChars line = identKey ++ t := by
    obtain ⟨t, ht⟩ := List.isPrefixOf_iff_prefix.mp h
    exact ⟨t, ht.symm⟩
  obtain ⟨hdl, hwsp⟩ := rdrop_decomp isGoSpace (line.dropWhile isGoSpace)
  obtain ⟨hl, hws⟩ := drop_decomp isGoSpace line
  have hkey : identKey = "identifier".data ++ [':'] := by decide
  have ht' : (line.dropWhile isGoSpace).rdropWhile isGoSpace = identKey ++ t := ht
  have hform : line = (line.takeWhile isGoSpace ++ "identifier".data)
      ++ ':' :: (t ++ ((line.dropWhile isGoSpace).reverse.takeWhile isGoSpace).reverse) := by
    conv_lhs => rw [hl]
    conv_lhs => rw [hdl]
    rw [ht', hkey]
    simp
  refine ⟨line.takeWhile isGoSpace,
      t, ((line.dropWhile isGoSpace).reverse.takeWhile isGoSpace).reverse,
      hws, hwsp, ht, hform, ?_⟩
  conv_lhs => rw [hform]
  exact breakOnChar_app (colon_not_mem_field hws) _

theorem fixLine_matched {line : List Char}
    (h : identKey.isPrefixOf (goTrimSpaceChars line) = true) :
    ∃ ws t, (∀ a ∈ ws, isGoSpace a = true)
      ∧ goTrimSpaceChars line = identKey ++ t
      ∧ fixIdentifierLine line
          = (ws ++ "identifier".data) ++ ':' :: ' ' :: replaceHyphens (goTrimSpaceChars t) := by
  obtain ⟨ws, t, w, hws, hw, htrim, _, hbreak⟩ := matched_line_decomp h
  refine ⟨ws, t, hws, htrim, ?_⟩
  unfold fixIdentifierLine
  rw [if_pos h, hbreak]
  dsimp only
  rw [trim_append_spaces hw]

theorem trim_fixed_line_cond {ws v : List Char} (hws : ∀ a ∈ ws, isGoSpace a = true)
    (hv2 : v.rdropWhile isGoSpace = v) :
    identKey.isPrefixOf
      (goTrimSpaceChars ((ws ++ "identifier".data) ++ ':' :: ' ' :: v)) = true := by
  have hdrop : ((ws ++ "identifier".data) ++ ':' :: ' ' :: v).dropWhile isGoSpace
      = "identifier".data ++ ':' :: ' ' :: v := by
    rw [List.append_assoc, dropWhile_append_of_forall hws]
    exact dropWhile_cons_neg (by decide) _
  unfold goTrimSpaceChars
  rw [hdrop]
  cases v with
  | nil =>
    have h1 : "identifier".data ++ [':', ' ']
        = ("identifier".data ++ [':']) ++ [' '] := by simp
    rw [h1, rdropWhile_append_of_forall (by intro a ha; simp at ha; subst ha; decide),
      List.rdropWhile_concat_neg _ _ ':' (by decide)]
    rw [show "identifier".data ++ [':'] = identKey from by decide]
    exact isPrefixOf_append_self identKey []
  | cons c v' =>
    have h1 : "identifier".data ++ ':' :: ' ' :: c :: v'
        = ("identifier".data ++ [':', ' ']) ++ c :: v' := by simp
    rw [h1, rdropWhile_stable_app hv2 (by simp) _]
    have h2 : ("identifier".data ++ [':', ' ']) ++ c :: v'
        = identKey ++ (' ' :: c :: v') := by
      rw [show identKey = "identifier".data ++ [':'] from by decide]
      simp
    rw [h2]
    exact isPrefixOf_append_self identKey _

theorem trim_space_cons {v : List Char} (hv1 : v.dropWhile isGoSpace = v)
    (hv2 : v.rdropWhile isGoSpace = v) :
    goTrimSpaceChars (' ' :: v) = v := by
  unfold goTrimSpaceChars
  rw [List.dropWhile_cons, if_pos (by decide), hv1, hv2]

theorem fixLine_on_fixed {ws v : List Char} (hws : ∀ a ∈ ws, isGoSpace a = true)
    (hv1 : v.dropWhile isGoSpace = v) (hv2 : v.rdropWhile isGoSpace = v)
    (hvh : replaceHyphens v = v) :
    fixIdentifierLine ((ws ++ "identifier".data) ++ ':' :: ' ' :: v)
      = (ws ++ "identifier".data) ++ ':' :: ' ' :: v := by
  unfold fixIdentifierLine
  rw [if_pos (trim_fixed_line_cond hws hv2)]
  rw [breakOnChar_app (colon_not_mem_field hws) (' ' :: v)]
  dsimp only
  rw [trim_space_cons hv1 hv2, hvh]

theorem fixIdentifierLine_idem (line : List Char) :
    fixIdentifierLine (fixIdentifierLine line) = fixIdentifierLine line := by
  by_cases h : identKey.isPrefixOf (goTrimSpaceChars line) = true
  · obtain ⟨ws, t, hws, htrim, hout⟩ := fixLine_matched h
    rw [hout]
    have hv1 : (replaceHyphens (goTrimSpaceChars t)).dropWhile isGoSpace
        = replaceHyphens (goTrimSpaceChars t) := by
      rw [dropWhile_replaceHyphens, trim_drop_stable]
    have hv2 : (replaceHyphens (goTrimSpaceChars t)).rdropWhile isGoSpace
        = replaceHyphens (goTrimSpaceChars t) := by
      rw [rdropWhile_replaceHyphens, trim_rdrop_stable]
    exact fixLine_on_fixed hws hv1 hv2 (replaceHyphens_idem _)
  · have hfix : fixIdentifierLine line = line := by
      unfold fixIdentifierLine
      rw [if_neg h]
    rw [hfix]
    exact hfix

theorem splitOnP_forall (p : Char → Bool) :
    ∀ xs : List Char, ∀ l ∈ xs.splitOnP p, ∀ y ∈ l, p y = false := by
  intro xs
  induction xs with
  | nil =>
    intro l hl y hy
    rw [List.splitOnP_nil] at hl
    rcases List.mem_singleton.mp hl with rfl
    exact absurd hy (List.not_mem_nil y)
  | cons a as ih =>
    intro l hl y hy
    rw [List.splitOnP_cons] at hl
    by_cases ha : p a = true
    · rw [if_pos ha] at hl
      rcases List.mem_cons.mp hl with rfl | hl2
      · exact absurd hy (List.not_mem_nil y)
      · exact ih l hl2 y hy
    · rw [if_neg ha] at hl
      cases hsp : as.splitOnP p with
      | nil => exact absurd hsp (List.splitOnP_ne_nil p as)
      | cons hd tl =>
        rw [hsp] at hl
        rcases List.mem_cons.mp hl with rfl | hl2
        · rcases List.mem_cons.mp hy with rfl | hy2
          · simpa using ha
          · exact ih hd (hsp ▸ List.mem_cons_self hd tl) y hy2
        · exact ih l (hsp ▸ List.mem_cons_of_mem hd hl2) y hy

theorem not_mem_splitOn_self (x : Char) (xs : List Char) :
    ∀ l ∈ xs.splitOn x, x ∉ l := by
  intro l hl hx
  have hl' : l ∈ xs.splitOnP (· == x) := by
    rw [List.splitOn] at hl
    exact hl
  have := splitOnP_forall (· == x) xs l hl' x hx
  simp at this

theorem fixLine_matched_out {line : List Char}
    (h : identKey.isPrefixOf (goTrimSpaceChars line) = true) :
    ∃ ws t w, (∀ a ∈ ws, isGoSpace a = true)
      ∧ (∀ a ∈ w, isGoSpace a = true)
      ∧ line = (ws ++ "identifier".data) ++ ':' :: (t ++ w)
      ∧ fixIdentifierLine line
          = (ws ++ "identifier".data) ++ ':' :: ' ' :: replaceHyphens (goTrimSpaceChars t) := by
  obtain ⟨ws, t, w, hws, hw, htrim, hline, hbreak⟩ := matched_line_decomp h
  refine ⟨ws, t, w, hws, hw, hline, ?_⟩
  unfold fixIdentifierLine
  rw [if_pos h, hbreak]
  dsimp only
  rw [trim_append_spaces hw]

theorem fixLine_no_newline {line : List Char} (hnl : '\n' ∉ line) :
    '\n' ∉ fixIdentifierLine line := by
  by_cases hc : identKey.isPrefixOf (goTrimSpaceChars line) = true
  · obtain ⟨ws, t, w, hws, hw, hline, hout⟩ := fixLine_matched_out hc
    rw [hout]
    intro hmem
    rcases List.mem_append.mp hmem with hh | hh
    · apply hnl
      rw [hline]
      exact List.mem_append_left _ hh
    · rcases List.mem_cons.mp hh with hh2 | hh2
      · exact absurd hh2 (by decide)
      · rcases List.mem_cons.mp hh2 with hh3 | hh3
        · exact absurd hh3 (by decide)
        · have h1 : '\n' ∈ goTrimSpaceChars t := replaceHyphens_newline hh3
          have h2 : '\n' ∈ t :=
            mem_of_mem_dropWhile (mem_of_mem_rdropWhile h1)
          apply hnl
          rw [hline]
          exact List.mem_append_right _
            (List.mem_cons_of_mem ':' (List.mem_append_left _ h2))
  · have hfix : fixIdentifierLine line = line := by
      unfold fixIdentifierLine
      rw [if_neg hc]
    rwa [hfix]

theorem sanitize_lines_no_newline (d : List Char) :
    ∀ l ∈ (d.splitOn '\n').map fixIdentifierLine, '\n' ∉ l := by
  intro l hl
  obtain ⟨l0, hl0, rfl⟩ := List.mem_map.mp hl
  exact fixLine_no_newline (not_mem_splitOn_self '\n' d l0 hl0)

theorem sanitize_lines_ne_nil (d : List Char) :
    (d.splitOn '\n').map fixIdentifierLine ≠ [] := by
  intro hemp
  rw [List.map_eq_nil_iff] at hemp
  have := List.splitOnP_ne_nil (· == '\n') d
  rw [List.splitOn] at hemp
  exact this hemp

theorem sanitizeChars_idem (d : List Char) :
    sanitizeChars (sanitizeChars d) = sanitizeChars d := by
  unfold sanitizeChars
  rw [List.splitOn_intercalate _ '\n' (sanitize_lines_no_newline d) (sanitize_lines_ne_nil d)]
  congr 1
  rw [List.map_map]
  exact List.map_congr_left (fun l _ => fixIdentifierLine_idem l)

theorem sanitizeChars_no_hyphen (d : List Char) :
    ∀ line ∈ (sanitizeChars d).splitOn '\n',
      identKey.isPrefixOf (goTrimSpaceChars line) = true →
      ∀ pr : List Char × List Char, breakOnChar ':' line = some pr → '-' ∉ pr.2 := by
  intro line hline hcond pr hbreak
  rw [show sanitizeChars d
        = List.intercalate ['\n'] ((d.splitOn '\n').map fixIdentifierLine) from rfl,
    List.splitOn_intercalate _ '\n' (sanitize_lines_no_newline d)
      (sanitize_lines_ne_nil d)] at hline
  obtain ⟨l0, hl0, rfl⟩ := List.mem_map.mp hline
  by_cases hc : identKey.isPrefixOf (goTrimSpaceChars l0) = true
  · obtain ⟨ws, t, w, hws, hw, hl0form, hout⟩ := fixLine_matched_out hc
    have hbr : breakOnChar ':' (fixIdentifierLine l0)
        = some (ws ++ "identifier".data, ' ' :: replaceHyphens (goTrimSpaceChars t)) := by
      rw [hout]
      exact breakOnChar_app (colon_not_mem_field hws) _
    rw [hbr] at hbreak
    obtain rfl : pr = (ws ++ "identifier".data, ' ' :: replaceHyphens (goTrimSpaceChars t)) := by
      cases hbreak
      rfl
    intro hmem
    rcases List.mem_cons.mp hmem with hh | hh
    · exact absurd hh (by decide)
    · exact replaceHyphens_no_hyphen hh rfl
  · have hfix : fixIdentifierLine l0 = l0 := by
      unfold fixIdentifierLine
      rw [if_neg hc]
    rw [hfix] at hcond
    exact absurd hcond hc

/-- C7: identifier sanitization is idempotent — sanitizing an
already-sanitized manifest yields the same content — and in the output no
line whose trimmed text begins with `identifier:` contains a hyphen after
its first colon (so the identifier value is hyphen-free). -/
theorem sanitizeYAMLIdentifiers_idem (s : String) :
    sanitizeYAMLIdentifiers (sanitizeYAMLIdentifiers s) = sanitizeYAMLIdentifiers s
    ∧ ∀ line ∈ (sanitizeYAMLIdentifiers s).data.splitOn '\n',
        identKey.isPrefixOf (goTrimSpaceChars line) = true →
        ∀ pr : List Char × List Char, breakOnChar ':' line = some pr → '-' ∉ pr.2 := by
  constructor
  · show String.mk (sanitizeChars (String.mk (sanitizeChars s.data)).data)
      = String.mk (sanitizeChars s.data)
    rw [show (String.mk (sanitizeChars s.data)).data = sanitizeChars s.data from rfl,
      sanitizeChars_idem]
  · exact sanitizeChars_no_hyphen s.data

/-- C7 witness: on a concrete manifest the sanitized output is a fixed
point and the rewritten identifier line carries no hyphen after its
colon. -/
theorem sanitizeYAMLIdentifiers_idem_witness :
    (sanitizeYAMLIdentifiers
        (sanitizeYAMLIdentifiers "identifier: my-service\nkind: Component")
      = sanitizeYAMLIdentifiers "identifier: my-service\nkind: Component")
    ∧ '-' ∉ (("identifier".data, " my_service".data) : List Char × List Char).2 :=
  ⟨(sanitizeYAMLIdentifiers_idem "identifier: my-service\nkind: Component").1,
   (sanitizeYAMLIdentifiers_idem "identifier: my-service\nkind: Component").2
     "identifier: my_service".data (by decide) (by decide)
     ("identifier".data, " my_service".data) (by decide)⟩


/-! ### Scheduler lemmas -/

theorem countP_set_eq (p : TaskPhase → Bool) :
    ∀ (l : List TaskPhase) (i : Nat) (a v : TaskPhase), l[i]? = some v →
      (l.set i a).countP p + (if p v then 1 else 0)
        = l.countP p + (if p a then 1 else 0) := by
  intro l
  induction l with
  | nil => intro i a v hv; simp at hv
  | cons b t ih =>
    intro i a v hv
    cases i with
    | zero =>
      obtain rfl : b = v := by simpa using hv
      simp [List.countP_cons]
      omega
    | succ j =>
      have hv' : t[j]? = some v := by simpa using hv
      have := ih j a v hv'
      simp [List.countP_cons]
      omega

theorem countP_replicate_idle (p : TaskPhase → Bool) (hp : p TaskPhase.idle = false) :
    ∀ n, (List.replicate n TaskPhase.idle).countP p = 0 := by
  intro n
  induction n with
  | zero => rfl
  | succ m ih => simp [List.replicate_succ, List.countP_cons, hp, ih]

/-- The scheduler invariant, by induction over reachability: the task list
keeps its length, at most `C` tasks hold semaphore slots, and the number
of results sent equals the number of finished tasks. -/
theorem sched_invariant (C n : Nat) (s : SchedState) (h : SchedReach C n s) :
    s.tasks.length = n
    ∧ admittedCount s.tasks ≤ C
    ∧ s.resultsSent = finishedCount s.tasks := by
  unfold SchedReach at h
  induction h with
  | refl =>
    refine ⟨by simp [initSched], ?_, ?_⟩
    · unfold initSched admittedCount
      rw [countP_replicate_idle _ (by decide) n]
      exact Nat.zero_le C
    · unfold initSched finishedCount
      rw [countP_replicate_idle _ (by decide) n]
  | tail hreach hstep ih =>
    rename_i b c
    obtain ⟨ihlen, ihadm, ihres⟩ := ih
    cases hstep with
    | launch i hi =>
      have hadm := countP_set_eq TaskPhase.holdsSlot b.tasks i .waiting .idle hi
      have hfin := countP_set_eq TaskPhase.isFinished b.tasks i .waiting .idle hi
      simp [TaskPhase.holdsSlot, TaskPhase.isFinished] at hadm hfin
      dsimp only
      refine ⟨by simpa using ihlen, ?_, ?_⟩
      · unfold admittedCount at ihadm ⊢
        omega
      · unfold finishedCount at ihres ⊢
        omega
    | acquire i hi hc =>
      have hadm := countP_set_eq TaskPhase.holdsSlot b.tasks i .rateWait .waiting hi
      have hfin := countP_set_eq TaskPhase.isFinished b.tasks i .rateWait .waiting hi
      simp [TaskPhase.holdsSlot, TaskPhase.isFinished] at hadm hfin
      unfold admittedCount at hc
      dsimp only
      refine ⟨by simpa using ihlen, ?_, ?_⟩
      · unfold admittedCount
        omega
      · unfold finishedCount at ihres ⊢
        omega
    | invokeStrategy i hi =>
      have hadm := countP_set_eq TaskPhase.holdsSlot b.tasks i .running .rateWait hi
      have hfin := countP_set_eq TaskPhase.isFinished b.tasks i .running .rateWait hi
      simp [TaskPhase.holdsSlot, TaskPhase.isFinished] at hadm hfin
      dsimp only
      refine ⟨by simpa using ihlen, ?_, ?_⟩
      · unfold admittedCount at ihadm ⊢
        omega
      · unfold finishedCount at ihres ⊢
        omega
    | finish i hi hq =>
      have hadm := countP_set_eq TaskPhase.holdsSlot b.tasks i .finished .running hi
      have hfin := countP_set_eq TaskPhase.isFinished b.tasks i .finished .running hi
      simp [TaskPhase.holdsSlot, TaskPhase.isFinished] at hadm hfin
      dsimp only
      refine ⟨by simpa using ihlen, ?_, ?_⟩
      · unfold admittedCount at ihadm ⊢
        omega
      · unfold finishedCount at ihres ⊢
        omega

/-- C9: for every concurrency limit `C ≥ 1` and every reachable scheduler
state, at most `C` tasks are admitted (holding the semaphore through the
rate-limit wait and the Strategy call), exactly one result has been sent
per finished task, and when every task has finished the caller has exactly
one result per dispatched repository. -/
theorem scheduler_bounded_admission (C n : Nat) (_hC : 1 ≤ C) (s : SchedState)
    (h : SchedReach C n s) :
    admittedCount s.tasks ≤ C
    ∧ s.resultsSent = finishedCount s.tasks
    ∧ s.tasks.length = n
    ∧ ((∀ ph ∈ s.tasks, ph = TaskPhase.finished) → s.resultsSent = n) := by
  obtain ⟨hlen, hadm, hres⟩ := sched_invariant C n s h
  refine ⟨hadm, hres, hlen, ?_⟩
  intro hall
  rw [hres]
  unfold finishedCount
  rw [← hlen]
  rw [List.countP_eq_length]
  intro a ha
  rw [hall a ha]
  rfl

/-- C9 witness: the invariant instantiated at `C = 1`, one repository and
the initial state. -/
theorem scheduler_bounded_admission_witness :
    admittedCount (initSched 1).tasks ≤ 1
    ∧ (initSched 1).resultsSent = finishedCount (initSched 1).tasks
    ∧ (initSched 1).tasks.length = 1 :=
  ⟨(scheduler_bounded_admission 1 1 (by decide) (initSched 1)
      Relation.ReflTransGen.refl).1,
   (scheduler_bounded_admission 1 1 (by decide) (initSched 1)
      Relation.ReflTransGen.refl).2.1,
   (scheduler_bounded_admission 1 1 (by decide) (initSched 1)
      Relation.ReflTransGen.refl).2.2.1⟩

end IdpOnboarder
